import Mathlib

/-!
Verification of the swift object auditor (src/swift/obj/auditor.py) and the
crypto utilities (src/swift/common/crypto_utils.py).

Python 2 byte strings are modelled as `List Nat` with every byte `< 256`.
Exceptions are modelled by an explicit `PyExc` type and `Except`-typed
definitions that mirror the try/except structure of the source.
-/

namespace Swift

set_option autoImplicit false

/-- Python 2 byte string. -/
abbrev Bytes := List Nat

deriving instance DecidableEq for Except

/-- Python exception kinds relevant to the audited code paths. -/
inductive PyExc
  | keyError
  | valueError
  | typeError
  | attributeError
  | zeroDivisionError
  deriving DecidableEq, Repr

/-- Convert an ASCII Lean string to the byte-list model of a py2 str. -/
def bytesOfString (s : String) : Bytes :=
  s.data.map Char.toNat

/-! ## base64 (Python 2 `base64.b64encode` / `base64.b64decode`)

`b64encode` maps each 3-byte group to 4 alphabet characters, padding the final
partial group with `=` (byte 61).  Py2 `b64decode` (binascii.a2b_base64)
ignores non-alphabet characters, requires the number of significant characters
to be a multiple of 4, treats `=` as a terminator, and raises a `TypeError`
(binascii.Error is a TypeError subclass in py2) on incorrect padding. -/

/-- Value of the nth base64 alphabet character (n < 64). -/
def b64digit (n : Nat) : Nat :=
  if n < 26 then 65 + n
  else if n < 52 then 97 + (n - 26)
  else if n < 62 then 48 + (n - 52)
  else if n = 62 then 43
  else 47

/-- Inverse alphabet lookup: byte to 6-bit value. -/
def b64val (c : Nat) : Option Nat :=
  if 65 ≤ c ∧ c ≤ 90 then some (c - 65)
  else if 97 ≤ c ∧ c ≤ 122 then some (c - 97 + 26)
  else if 48 ≤ c ∧ c ≤ 57 then some (c - 48 + 52)
  else if c = 43 then some 62
  else if c = 47 then some 63
  else none

/-- base64.b64encode on a byte string. -/
def b64encode : Bytes → Bytes
  | b0 :: b1 :: b2 :: rest =>
      b64digit (b0 / 4) :: b64digit ((b0 % 4) * 16 + b1 / 16) ::
      b64digit ((b1 % 16) * 4 + b2 / 64) :: b64digit (b2 % 64) :: b64encode rest
  | [b0, b1] =>
      [b64digit (b0 / 4), b64digit ((b0 % 4) * 16 + b1 / 16),
       b64digit ((b1 % 16) * 4), 61]
  | [b0] =>
      [b64digit (b0 / 4), b64digit ((b0 % 4) * 16), 61, 61]
  | [] => []

/-- Decode a list of 6-bit values into bytes; a dangling single value is a
padding error. -/
def decodeVals : List Nat → Except Unit Bytes
  | [] => .ok []
  | [_] => .error ()
  | [a, b] => .ok [a * 4 + b / 16]
  | [a, b, c] => .ok [a * 4 + b / 16, (b % 16) * 16 + c / 4]
  | a :: b :: c :: d :: rest =>
      (decodeVals rest).map
        (fun bs => (a * 4 + b / 16) :: ((b % 16) * 16 + c / 4) ::
                   ((c % 4) * 64 + d) :: bs)

/-- Is the byte a base64 alphabet character or the padding character? -/
def isB64OrPad (c : Nat) : Bool := (b64val c).isSome || c == 61

/-- base64.b64decode, py2 semantics: non-alphabet bytes are skipped, the count
of significant bytes must be a multiple of 4, `=` terminates the data. -/
def b64decode (s : Bytes) : Except Unit Bytes :=
  let valid := s.filter isB64OrPad
  if valid.length % 4 = 0 then
    decodeVals ((valid.takeWhile (fun c => c != 61)).filterMap b64val)
  else .error ()

/-! ## percent-encoding (Python 2 `urllib.quote_plus` / `urllib.unquote_plus`) -/

/-- Characters urllib.quote leaves unescaped (always_safe, with empty safe
argument): ASCII letters, digits, `_`, `.`, `-`. -/
def quoteSafe (c : Nat) : Bool :=
  (65 ≤ c ∧ c ≤ 90) ∨ (97 ≤ c ∧ c ≤ 122) ∨ (48 ≤ c ∧ c ≤ 57) ∨
    c = 95 ∨ c = 46 ∨ c = 45

/-- Uppercase hex digit character for n < 16. -/
def hexDigitUpper (n : Nat) : Nat :=
  if n < 10 then 48 + n else 55 + n

/-- Per-byte output of urllib.quote_plus: safe bytes kept, space becomes `+`,
everything else becomes `%XX`. -/
def quotePlusChar (c : Nat) : Bytes :=
  if quoteSafe c then [c]
  else if c = 32 then [43]
  else [37, hexDigitUpper (c / 16 % 16), hexDigitUpper (c % 16)]

/-- urllib.quote_plus with the default (empty) safe set. -/
def quote_plus (s : Bytes) : Bytes :=
  s.flatMap quotePlusChar

/-- Hex digit value, accepting both cases (as urllib.unquote does). -/
def hexVal (c : Nat) : Option Nat :=
  if 48 ≤ c ∧ c ≤ 57 then some (c - 48)
  else if 65 ≤ c ∧ c ≤ 70 then some (c - 65 + 10)
  else if 97 ≤ c ∧ c ≤ 102 then some (c - 97 + 10)
  else none

/-- Percent-decoding pass of urllib.unquote: a `%` followed by two hex digits
becomes the denoted byte; malformed escapes are passed through unchanged. -/
def unquotePct : Bytes → Bytes
  | [] => []
  | 37 :: a :: b :: rest =>
      match hexVal a, hexVal b with
      | some x, some y => (16 * x + y) :: unquotePct rest
      | _, _ => 37 :: unquotePct (a :: b :: rest)
  | c :: rest => c :: unquotePct rest

/-- urllib.unquote_plus: `+` becomes space, then percent-decode. -/
def unquote_plus (s : Bytes) : Bytes :=
  unquotePct (s.map (fun c => if c = 43 then 32 else c))

theorem b64val_b64digit : ∀ n < 64, b64val (b64digit n) = some n := by decide

theorem isB64OrPad_b64digit (n : Nat) : isB64OrPad (b64digit n) = true := by
  unfold isB64OrPad b64val b64digit
  split_ifs <;> simp_all <;> omega

theorem b64digit_ne_pad (n : Nat) : b64digit n ≠ 61 := by
  unfold b64digit
  split_ifs <;> omega

theorem mem_b64encode_isB64OrPad :
    ∀ bs, ∀ c ∈ b64encode bs, isB64OrPad c = true := by
  intro bs
  induction bs using b64encode.induct with
  | case1 b0 b1 b2 rest ih =>
      intro c hc
      simp only [b64encode, List.mem_cons] at hc
      rcases hc with h | h | h | h | h
      · exact h ▸ isB64OrPad_b64digit _
      · exact h ▸ isB64OrPad_b64digit _
      · exact h ▸ isB64OrPad_b64digit _
      · exact h ▸ isB64OrPad_b64digit _
      · exact ih c h
  | case2 b0 b1 =>
      intro c hc
      simp only [b64encode, List.mem_cons] at hc
      rcases hc with h | h | h | h | h
      · exact h ▸ isB64OrPad_b64digit _
      · exact h ▸ isB64OrPad_b64digit _
      · exact h ▸ isB64OrPad_b64digit _
      · simp [h, isB64OrPad]
      · simp at h
  | case3 b0 =>
      intro c hc
      simp only [b64encode, List.mem_cons] at hc
      rcases hc with h | h | h | h | h
      · exact h ▸ isB64OrPad_b64digit _
      · exact h ▸ isB64OrPad_b64digit _
      · simp [h, isB64OrPad]
      · simp [h, isB64OrPad]
      · simp at h
  | case4 =>
      intro c hc
      simp [b64encode] at hc

theorem b64encode_length_mod (bs : Bytes) : (b64encode bs).length % 4 = 0 := by
  induction bs using b64encode.induct with
  | case1 b0 b1 b2 rest ih => simp [b64encode]; omega
  | case2 b0 b1 => simp [b64encode]
  | case3 b0 => simp [b64encode]
  | case4 => simp [b64encode]

theorem decodeVals_b64encode :
    ∀ bs : Bytes, (∀ b ∈ bs, b < 256) →
      decodeVals (((b64encode bs).takeWhile (fun c => c != 61)).filterMap b64val)
        = .ok bs := by
  intro bs
  induction bs using b64encode.induct with
  | case1 b0 b1 b2 rest ih =>
      intro h
      have hb0 : b0 < 256 := h b0 (by simp)
      have hb1 : b1 < 256 := h b1 (by simp)
      have hb2 : b2 < 256 := h b2 (by simp)
      have hrest : ∀ b ∈ rest, b < 256 := fun b hb => h b (by simp [hb])
      simp only [b64encode, List.takeWhile_cons]
      rw [if_pos (by simp [b64digit_ne_pad]), if_pos (by simp [b64digit_ne_pad]),
          if_pos (by simp [b64digit_ne_pad]), if_pos (by simp [b64digit_ne_pad])]
      simp only [List.filterMap_cons]
      rw [b64val_b64digit _ (by omega), b64val_b64digit _ (by omega),
          b64val_b64digit _ (by omega), b64val_b64digit _ (by omega)]
      simp only [decodeVals, ih hrest, Except.map]
      congr 1
      simp only [List.cons.injEq, and_true]
      omega
  | case2 b0 b1 =>
      intro h
      have hb0 : b0 < 256 := h b0 (by simp)
      have hb1 : b1 < 256 := h b1 (by simp)
      simp only [b64encode, List.takeWhile_cons]
      rw [if_pos (by simp [b64digit_ne_pad]), if_pos (by simp [b64digit_ne_pad]),
          if_pos (by simp [b64digit_ne_pad]), if_neg (by simp)]
      simp only [List.filterMap_cons]
      rw [b64val_b64digit _ (by omega), b64val_b64digit _ (by omega),
          b64val_b64digit _ (by omega)]
      simp only [List.filterMap_nil, decodeVals]
      congr 1
      simp only [List.cons.injEq, and_true]
      omega
  | case3 b0 =>
      intro h
      have hb0 : b0 < 256 := h b0 (by simp)
      simp only [b64encode, List.takeWhile_cons]
      rw [if_pos (by simp [b64digit_ne_pad]), if_pos (by simp [b64digit_ne_pad]),
          if_neg (by simp)]
      simp only [List.filterMap_cons]
      rw [b64val_b64digit _ (by omega), b64val_b64digit _ (by omega)]
      simp only [List.filterMap_nil, decodeVals]
      congr 1
      simp only [List.cons.injEq, and_true]
      omega
  | case4 =>
      intro _
      simp [b64encode, decodeVals]

theorem b64decode_b64encode (bs : Bytes) (h : ∀ b ∈ bs, b < 256) :
    b64decode (b64encode bs) = .ok bs := by
  unfold b64decode
  rw [List.filter_eq_self.mpr (mem_b64encode_isB64OrPad bs)]
  rw [if_pos (b64encode_length_mod bs)]
  exact decodeVals_b64encode bs h

theorem hexVal_hexDigitUpper : ∀ n < 16, hexVal (hexDigitUpper n) = some n := by
  decide

theorem hexDigitUpper_ne_plus : ∀ n < 16, hexDigitUpper n ≠ 43 := by decide

theorem unquotePct_cons_ne (c : Nat) (rest : Bytes) (hc : c ≠ 37) :
    unquotePct (c :: rest) = c :: unquotePct rest := by
  rw [unquotePct.eq_def]
  split
  · simp_all
  · simp_all
  · rename_i c2 rest2 hx heq
    injection heq with h1 h2
    subst h1
    subst h2
    rfl

theorem unquotePct_escape (a b x y : Nat) (rest : Bytes)
    (ha : hexVal a = some x) (hb : hexVal b = some y) :
    unquotePct (37 :: a :: b :: rest) = (16 * x + y) :: unquotePct rest := by
  simp [unquotePct, ha, hb]

theorem quoteSafe_ne (c : Nat) (h : quoteSafe c = true) : c ≠ 37 ∧ c ≠ 43 := by
  simp only [quoteSafe, decide_eq_true_eq] at h
  omega

theorem unquote_plus_quote_plus (s : Bytes) (h : ∀ c ∈ s, c < 256) :
    unquote_plus (quote_plus s) = s := by
  induction s with
  | nil => rfl
  | cons c tl ih =>
      have hc : c < 256 := h c (by simp)
      have htl : ∀ x ∈ tl, x < 256 := fun x hx => h x (by simp [hx])
      simp only [unquote_plus, quote_plus] at *
      rw [List.flatMap_cons, List.map_append]
      by_cases hs : quoteSafe c = true
      · obtain ⟨h37, h43⟩ := quoteSafe_ne c hs
        have hq : quotePlusChar c = [c] := by
          unfold quotePlusChar
          rw [if_pos hs]
        rw [hq]
        simp only [List.map_cons, List.map_nil, if_neg h43, List.cons_append,
          List.nil_append]
        rw [unquotePct_cons_ne c _ h37, ih htl]
      · by_cases h32 : c = 32
        · subst h32
          have hq : quotePlusChar 32 = [43] := by decide
          rw [hq]
          have hmap : List.map (fun c => if c = 43 then 32 else c) [43] = [32] := by
            decide
          rw [hmap, List.cons_append, List.nil_append]
          rw [unquotePct_cons_ne 32 _ (by omega), ih htl]
        · have h16a : c / 16 % 16 < 16 := Nat.mod_lt _ (by omega)
          have h16b : c % 16 < 16 := Nat.mod_lt _ (by omega)
          have hq : quotePlusChar c =
              [37, hexDigitUpper (c / 16 % 16), hexDigitUpper (c % 16)] := by
            unfold quotePlusChar
            rw [if_neg (by simp [hs]), if_neg h32]
          rw [hq]
          simp only [List.map_cons, List.map_nil,
            if_neg (hexDigitUpper_ne_plus _ h16a),
            if_neg (hexDigitUpper_ne_plus _ h16b), List.cons_append,
            List.nil_append]
          rw [show ((if (37 : Nat) = 43 then 32 else 37) = 37) from rfl]
          rw [unquotePct_escape _ _ _ _ _ (hexVal_hexDigitUpper _ h16a)
            (hexVal_hexDigitUpper _ h16b)]
          rw [ih htl]
          congr 1
          omega

/-! ## JSON (Python 2 `json.dumps` / `json.loads`)

The source serializes only flat string-to-string objects (`dump_crypto_meta`)
but `json.loads` is applied to arbitrary attacker-controlled input in
`load_crypto_meta`, so the model includes a general JSON value type and a
recursive-descent reader.  `json.loads` raises `ValueError` on malformed
input; numbers keep their lexeme since no audited code path inspects them. -/

/-- A parsed JSON document. -/
inductive JVal
  | jstr (s : Bytes)
  | jnum (lexeme : Bytes)
  | jbool (b : Bool)
  | jnull
  | jarr (xs : List JVal)
  | jobj (kvs : List (Bytes × JVal))
  deriving Repr

/-- Escaping applied by json.dumps inside string literals (the serialized
crypto meta only ever contains bytes 32..126, for which dumps escapes exactly
the quote and the backslash). -/
def jsonEscapeChar (c : Nat) : Bytes :=
  if c = 34 ∨ c = 92 then [92, c] else [c]

def jsonEscape (s : Bytes) : Bytes := s.flatMap jsonEscapeChar

/-- Join byte strings with a separator, as json.dumps does with `", "`. -/
def joinSep (sep : Bytes) : List Bytes → Bytes
  | [] => []
  | [x] => x
  | x :: y :: tl => x ++ sep ++ joinSep sep (y :: tl)

/-- A JSON string literal: quote, escaped body, quote. -/
def jsonStrLit (s : Bytes) : Bytes := 34 :: (jsonEscape s ++ [34])

/-- One `"key": "value"` member as printed by py2 json.dumps. -/
def jsonMember (p : Bytes × Bytes) : Bytes :=
  jsonStrLit p.1 ++ [58, 32] ++ jsonStrLit p.2

/-- py2 json.dumps of a flat string-valued object: members joined by
`", "` inside braces. -/
def jsonDumps (d : List (Bytes × Bytes)) : Bytes :=
  123 :: (joinSep [44, 32] (d.map jsonMember) ++ [125])

/-- JSON whitespace. -/
def isJsonWs (c : Nat) : Bool := c == 32 || c == 9 || c == 10 || c == 13

def skipWs (s : Bytes) : Bytes := s.dropWhile isJsonWs

/-- Single-character escapes accepted after a backslash. -/
def unescapeChar (c : Nat) : Option Nat :=
  if c = 34 then some 34
  else if c = 92 then some 92
  else if c = 47 then some 47
  else if c = 98 then some 8
  else if c = 102 then some 12
  else if c = 110 then some 10
  else if c = 114 then some 13
  else if c = 116 then some 9
  else none

/-- Read a JSON string body after the opening quote; returns the decoded
bytes and the remaining input after the closing quote.  The fuel only bounds
the recursion; any fuel of at least the input length behaves identically. -/
def parseStrBody : Nat → Bytes → Option (Bytes × Bytes)
  | _, [] => none
  | 0, _ :: _ => none
  | f + 1, c :: rest =>
    if c = 34 then some ([], rest)
    else if c = 92 then
      match rest with
      | [] => none
      | e :: rest2 =>
        match unescapeChar e with
        | some c2 => (parseStrBody f rest2).map (fun pr => (c2 :: pr.1, pr.2))
        | none =>
          if e = 117 then
            match rest2 with
            | h1 :: h2 :: h3 :: h4 :: rest3 =>
              match hexVal h1, hexVal h2, hexVal h3, hexVal h4 with
              | some a, some b, some g, some d =>
                (parseStrBody f rest3).map
                  (fun pr => ((a * 4096 + b * 256 + g * 16 + d) :: pr.1, pr.2))
              | _, _, _, _ => none
            | _ => none
          else none
    else if c < 32 then none
    else (parseStrBody f rest).map (fun pr => (c :: pr.1, pr.2))

def isDigitB (c : Nat) : Bool := 48 ≤ c && c ≤ 57

/-- Integer part of a JSON number: `0` or a nonzero digit followed by
digits. -/
def parseIntDigits : Bytes → Option (Bytes × Bytes)
  | [] => none
  | c :: rest =>
      if c = 48 then some ([48], rest)
      else if 49 ≤ c ∧ c ≤ 57 then
        some (c :: rest.takeWhile isDigitB, rest.dropWhile isDigitB)
      else none

/-- Optional fraction part. -/
def parseFracPart : Bytes → Option (Bytes × Bytes)
  | 46 :: rest =>
      match rest.takeWhile isDigitB with
      | [] => none
      | ds => some (46 :: ds, rest.dropWhile isDigitB)
  | s => some ([], s)

/-- Optional exponent part. -/
def parseExpPart : Bytes → Option (Bytes × Bytes)
  | c :: rest =>
      if c = 101 ∨ c = 69 then
        match rest with
        | d :: rest2 =>
            if d = 43 ∨ d = 45 then
              match rest2.takeWhile isDigitB with
              | [] => none
              | ds => some (c :: d :: ds, rest2.dropWhile isDigitB)
            else
              match rest.takeWhile isDigitB with
              | [] => none
              | ds => some (c :: ds, rest.dropWhile isDigitB)
        | [] => none
      else some ([], c :: rest)
  | [] => some ([], [])

/-- A JSON number lexeme: sign, integer, fraction, exponent. -/
def parseNum (s : Bytes) : Option (Bytes × Bytes) := do
  let (sign, s1) := match s with
    | 45 :: r => (([45] : Bytes), r)
    | _ => (([] : Bytes), s)
  let (ip, s2) ← parseIntDigits s1
  let (fp, s3) ← parseFracPart s2
  let (ep, s4) ← parseExpPart s3
  pure (sign ++ ip ++ fp ++ ep, s4)

/-- Expect a literal keyword tail (rue / alse / ull). -/
def parseLit (lit : Bytes) (v : JVal) (s : Bytes) : Option (JVal × Bytes) :=
  if lit.isPrefixOf s then some (v, s.drop lit.length) else none

mutual

/-- Recursive-descent JSON value reader with explicit fuel (any fuel of at
least the input length succeeds on well-formed input). -/
def parseVal : Nat → Bytes → Option (JVal × Bytes)
  | 0, _ => none
  | _ + 1, [] => none
  | f + 1, c :: s =>
    if c = 34 then (parseStrBody (s.length + 1) s).map (fun pr => (.jstr pr.1, pr.2))
    else if c = 123 then
      match skipWs s with
      | 125 :: r => some (.jobj [], r)
      | s1 => (parseMembers f s1).map (fun pr => (.jobj pr.1, pr.2))
    else if c = 91 then
      match skipWs s with
      | 93 :: r => some (.jarr [], r)
      | s1 => (parseItems f s1).map (fun pr => (.jarr pr.1, pr.2))
    else if c = 116 then parseLit [114, 117, 101] (.jbool true) s
    else if c = 102 then parseLit [97, 108, 115, 101] (.jbool false) s
    else if c = 110 then parseLit [117, 108, 108] .jnull s
    else if c = 45 ∨ isDigitB c then
      (parseNum (c :: s)).map (fun pr => (.jnum pr.1, pr.2))
    else none

/-- Members of a JSON object after the opening brace (nonempty case). -/
def parseMembers : Nat → Bytes → Option (List (Bytes × JVal) × Bytes)
  | 0, _ => none
  | f + 1, 34 :: s =>
    match parseStrBody (s.length + 1) s with
    | none => none
    | some (k, s2) =>
      match skipWs s2 with
      | 58 :: s3 =>
        match parseVal f (skipWs s3) with
        | none => none
        | some (v, s4) =>
          match skipWs s4 with
          | 44 :: s5 =>
              (parseMembers f (skipWs s5)).map
                (fun pr => ((k, v) :: pr.1, pr.2))
          | 125 :: s5 => some ([(k, v)], s5)
          | _ => none
      | _ => none
  | _ + 1, _ => none

/-- Items of a JSON array after the opening bracket (nonempty case). -/
def parseItems : Nat → Bytes → Option (List JVal × Bytes)
  | 0, _ => none
  | f + 1, s =>
    match parseVal f s with
    | none => none
    | some (v, s2) =>
      match skipWs s2 with
      | 44 :: s3 => (parseItems f (skipWs s3)).map (fun pr => (v :: pr.1, pr.2))
      | 93 :: s3 => some ([v], s3)
      | _ => none

end

/-- py2 json.loads: parse one value surrounded by optional whitespace;
anything else raises ValueError. -/
def jsonLoads (s : Bytes) : Except PyExc JVal :=
  match parseVal (s.length + 1) (skipWs s) with
  | some (v, rest) => if skipWs rest = [] then .ok v else .error .valueError
  | none => .error .valueError

/-! ### The reader inverts the printer on serialized crypto meta -/

/-- Byte strings the py2 json.dumps model prints exactly (printable ASCII:
escaping is then limited to quote and backslash). -/
def jsonSafe (s : Bytes) : Prop := ∀ c ∈ s, 32 ≤ c ∧ c ≤ 126

theorem jsonEscape_length_ge (s : Bytes) : s.length ≤ (jsonEscape s).length := by
  induction s with
  | nil => simp [jsonEscape]
  | cons c tl ih =>
      simp only [jsonEscape, List.flatMap_cons, List.length_append,
        List.length_cons] at *
      have : 1 ≤ (jsonEscapeChar c).length := by
        unfold jsonEscapeChar
        split_ifs <;> simp
      omega

theorem skipWs_cons_of_not (c : Nat) (s : Bytes) (h : isJsonWs c = false) :
    skipWs (c :: s) = c :: s := by
  simp [skipWs, List.dropWhile_cons, h]

theorem skipWs_cons_space (s : Bytes) : skipWs (32 :: s) = skipWs s := by
  simp [skipWs, List.dropWhile_cons, isJsonWs]

theorem parseStrBody_quote (f : Nat) (s : Bytes) :
    parseStrBody (f + 1) (34 :: s) = some ([], s) := by
  simp [parseStrBody]

theorem parseStrBody_esc_step (f e c2 : Nat) (s : Bytes)
    (h : unescapeChar e = some c2) :
    parseStrBody (f + 1) (92 :: e :: s) =
      (parseStrBody f s).map (fun pr => (c2 :: pr.1, pr.2)) := by
  simp [parseStrBody, h]

theorem parseStrBody_lit_step (f c : Nat) (s : Bytes)
    (h1 : c ≠ 34) (h2 : c ≠ 92) (h3 : 32 ≤ c) :
    parseStrBody (f + 1) (c :: s) =
      (parseStrBody f s).map (fun pr => (c :: pr.1, pr.2)) := by
  simp [parseStrBody, h1, h2, show ¬c < 32 by omega]

theorem parseStrBody_inv (k : Bytes) :
    ∀ (fuel : Nat) (rest : Bytes), (∀ c ∈ k, 32 ≤ c ∧ c ≤ 126) →
      k.length < fuel →
      parseStrBody fuel (jsonEscape k ++ 34 :: rest) = some (k, rest) := by
  induction k with
  | nil =>
      intro fuel rest _ hf
      obtain ⟨f, rfl⟩ : ∃ f, fuel = f + 1 := ⟨fuel - 1, by omega⟩
      rw [show jsonEscape [] ++ 34 :: rest = 34 :: rest by simp [jsonEscape]]
      exact parseStrBody_quote f rest
  | cons c tl ih =>
      intro fuel rest hk hf
      obtain ⟨f, rfl⟩ : ∃ f, fuel = f + 1 := ⟨fuel - 1, by omega⟩
      have hc := hk c (by simp)
      have htl : ∀ x ∈ tl, 32 ≤ x ∧ x ≤ 126 := fun x hx => hk x (by simp [hx])
      have hlen : tl.length < f := by
        simp only [List.length_cons] at hf
        omega
      have hexp : jsonEscape (c :: tl) ++ 34 :: rest =
          jsonEscapeChar c ++ (jsonEscape tl ++ 34 :: rest) := by
        simp [jsonEscape, List.flatMap_cons, List.append_assoc]
      rw [hexp]
      by_cases hq : c = 34 ∨ c = 92
      · have hesc : jsonEscapeChar c = [92, c] := by
          unfold jsonEscapeChar
          rw [if_pos hq]
        have hu : unescapeChar c = some c := by
          rcases hq with h | h <;> subst h <;> rfl
        rw [hesc, List.cons_append, List.cons_append, List.nil_append]
        rw [parseStrBody_esc_step f c c _ hu, ih f rest htl hlen]
        rfl
      · push_neg at hq
        have hesc : jsonEscapeChar c = [c] := by
          unfold jsonEscapeChar
          rw [if_neg (by omega)]
        rw [hesc, List.cons_append, List.nil_append]
        rw [parseStrBody_lit_step f c _ hq.1 hq.2 hc.1, ih f rest htl hlen]
        rfl

theorem parseVal_strLit (v : Bytes) (f : Nat) (rest : Bytes)
    (hv : ∀ c ∈ v, 32 ≤ c ∧ c ≤ 126) :
    parseVal (f + 1) (jsonStrLit v ++ rest) = some (.jstr v, rest) := by
  have hshape : jsonStrLit v ++ rest = 34 :: (jsonEscape v ++ 34 :: rest) := by
    simp [jsonStrLit, List.append_assoc]
  rw [hshape]
  simp only [parseVal, if_pos rfl]
  rw [parseStrBody_inv v _ rest hv
    (by have := jsonEscape_length_ge v; simp only [List.length_append]; omega)]
  rfl

theorem parseStrBody_inv_auto (k tail : Bytes)
    (hk : ∀ c ∈ k, 32 ≤ c ∧ c ≤ 126) :
    parseStrBody ((jsonEscape k ++ 34 :: tail).length + 1)
      (jsonEscape k ++ 34 :: tail) = some (k, tail) :=
  parseStrBody_inv k _ tail hk
    (by
      have := jsonEscape_length_ge k
      simp only [List.length_append, List.length_cons]
      omega)

theorem skipWs_members (ms : List (Bytes × Bytes)) (hms : ms ≠ []) (z : Bytes) :
    skipWs (joinSep [44, 32] (ms.map jsonMember) ++ z)
      = joinSep [44, 32] (ms.map jsonMember) ++ z := by
  cases ms with
  | nil => exact absurd rfl hms
  | cons y tl =>
      cases tl with
      | nil =>
          have hshape : joinSep [44, 32] ([y].map jsonMember) ++ z
              = 34 :: (jsonEscape y.1 ++ [34] ++ [58, 32] ++ jsonStrLit y.2 ++ z) := by
            simp [joinSep, jsonMember, jsonStrLit, List.append_assoc]
          rw [hshape]
          exact skipWs_cons_of_not 34 _ (by decide)
      | cons w tl2 =>
          have hshape : joinSep [44, 32] ((y :: w :: tl2).map jsonMember) ++ z
              = 34 :: (jsonEscape y.1 ++ [34] ++ [58, 32] ++ jsonStrLit y.2 ++ [44, 32]
                  ++ joinSep [44, 32] ((w :: tl2).map jsonMember) ++ z) := by
            simp [joinSep, jsonMember, jsonStrLit, List.append_assoc]
          rw [hshape]
          exact skipWs_cons_of_not 34 _ (by decide)

theorem parseMembers_inv (d : List (Bytes × Bytes)) :
    ∀ (f : Nat) (rest : Bytes),
      d ≠ [] →
      (∀ p ∈ d, (∀ c ∈ p.1, 32 ≤ c ∧ c ≤ 126) ∧ (∀ c ∈ p.2, 32 ≤ c ∧ c ≤ 126)) →
      d.length < f →
      parseMembers f (joinSep [44, 32] (d.map jsonMember) ++ 125 :: rest)
        = some (d.map (fun p => (p.1, JVal.jstr p.2)), rest) := by
  induction d with
  | nil => intro f rest hne _ _; exact absurd rfl hne
  | cons p ms ih =>
      intro f rest _ hsafe hf
      obtain ⟨k, v⟩ := p
      obtain ⟨hk, hv⟩ := hsafe (k, v) (by simp)
      obtain ⟨f1, rfl⟩ : ∃ f1, f = f1 + 1 := ⟨f - 1, by omega⟩
      obtain ⟨f2, rfl⟩ : ∃ f2, f1 = f2 + 1 := by
        refine ⟨f1 - 1, ?_⟩
        simp only [List.length_cons] at hf
        omega
      cases ms with
      | nil =>
          have hshape : joinSep [44, 32] ([((k : Bytes), (v : Bytes))].map jsonMember)
                ++ 125 :: rest
              = 34 :: (jsonEscape k ++ 34 :: (58 :: 32 :: (jsonStrLit v ++ 125 :: rest))) := by
            simp [joinSep, jsonMember, jsonStrLit, List.append_assoc]
          rw [hshape]
          simp only [parseMembers]
          rw [parseStrBody_inv_auto k _ hk]
          simp only []
          rw [skipWs_cons_of_not 58 _ (by decide)]
          simp only []
          rw [skipWs_cons_space]
          rw [show skipWs (jsonStrLit v ++ 125 :: rest) = jsonStrLit v ++ 125 :: rest from by
            rw [show jsonStrLit v ++ 125 :: rest
                = 34 :: (jsonEscape v ++ [34] ++ 125 :: rest) from by
              simp [jsonStrLit, List.append_assoc]]
            exact skipWs_cons_of_not 34 _ (by decide)]
          rw [parseVal_strLit v f2 _ hv]
          simp only []
          rw [skipWs_cons_of_not 125 _ (by decide)]
          rfl
      | cons q tl =>
          have hsafe2 : ∀ r ∈ q :: tl,
              (∀ c ∈ r.1, 32 ≤ c ∧ c ≤ 126) ∧ (∀ c ∈ r.2, 32 ≤ c ∧ c ≤ 126) :=
            fun r hr => hsafe r (by simp [hr])
          have hlen2 : (q :: tl).length < f2 + 1 := by
            simp only [List.length_cons] at hf ⊢
            omega
          have hshape : joinSep [44, 32] (((k, v) :: q :: tl).map jsonMember) ++ 125 :: rest
              = 34 :: (jsonEscape k ++ 34 :: (58 :: 32 :: (jsonStrLit v
                  ++ (44 :: 32 :: (joinSep [44, 32] ((q :: tl).map jsonMember)
                      ++ 125 :: rest))))) := by
            simp [joinSep, jsonMember, jsonStrLit, List.append_assoc]
          rw [hshape]
          simp only [parseMembers]
          rw [parseStrBody_inv_auto k _ hk]
          simp only []
          rw [skipWs_cons_of_not 58 _ (by decide)]
          simp only []
          rw [skipWs_cons_space]
          rw [show skipWs (jsonStrLit v ++ (44 :: 32 :: (joinSep [44, 32]
                ((q :: tl).map jsonMember) ++ 125 :: rest)))
              = jsonStrLit v ++ (44 :: 32 :: (joinSep [44, 32]
                ((q :: tl).map jsonMember) ++ 125 :: rest)) from by
            rw [show jsonStrLit v ++ (44 :: 32 :: (joinSep [44, 32]
                  ((q :: tl).map jsonMember) ++ 125 :: rest))
                = 34 :: (jsonEscape v ++ [34] ++ (44 :: 32 :: (joinSep [44, 32]
                  ((q :: tl).map jsonMember) ++ 125 :: rest))) from by
              simp [jsonStrLit, List.append_assoc]]
            exact skipWs_cons_of_not 34 _ (by decide)]
          rw [parseVal_strLit v f2 _ hv]
          simp only []
          rw [skipWs_cons_of_not 44 _ (by decide)]
          simp only []
          rw [skipWs_cons_space]
          rw [skipWs_members (q :: tl) (by simp) _]
          rw [ih (f2 + 1) rest (by simp) hsafe2 hlen2]
          rfl

theorem members_length_ge (d : List (Bytes × Bytes)) :
    d.length ≤ (joinSep [44, 32] (d.map jsonMember)).length := by
  induction d with
  | nil => simp [joinSep]
  | cons p ms ih =>
      cases ms with
      | nil => simp [joinSep, jsonMember, jsonStrLit]
      | cons q tl =>
          have hstep : joinSep [44, 32] ((p :: q :: tl).map jsonMember)
              = jsonMember p ++ [44, 32] ++ joinSep [44, 32] ((q :: tl).map jsonMember) := by
            simp [joinSep]
          rw [hstep]
          simp only [List.length_append, List.length_cons] at *
          omega

theorem members_head_shape (p : Bytes × Bytes) (ms : List (Bytes × Bytes)) (z : Bytes) :
    ∃ t, joinSep [44, 32] ((p :: ms).map jsonMember) ++ z = 34 :: t := by
  cases ms with
  | nil =>
      exact ⟨jsonEscape p.1 ++ [34] ++ [58, 32] ++ jsonStrLit p.2 ++ z, by
        simp [joinSep, jsonMember, jsonStrLit, List.append_assoc]⟩
  | cons w tl2 =>
      exact ⟨jsonEscape p.1 ++ [34] ++ [58, 32] ++ jsonStrLit p.2 ++ [44, 32]
          ++ joinSep [44, 32] ((w :: tl2).map jsonMember) ++ z, by
        simp [joinSep, jsonMember, jsonStrLit, List.append_assoc]⟩

theorem parseVal_obj_step (f : Nat) (s : Bytes) :
    parseVal (f + 1) (123 :: s) =
      match skipWs s with
      | 125 :: r => some (.jobj [], r)
      | s1 => (parseMembers f s1).map (fun pr => (.jobj pr.1, pr.2)) := by
  rfl

theorem jsonLoads_jsonDumps (d : List (Bytes × Bytes))
    (hsafe : ∀ p ∈ d, (∀ c ∈ p.1, 32 ≤ c ∧ c ≤ 126) ∧ (∀ c ∈ p.2, 32 ≤ c ∧ c ≤ 126)) :
    jsonLoads (jsonDumps d) = .ok (.jobj (d.map (fun p => (p.1, JVal.jstr p.2)))) := by
  cases d with
  | nil => rfl
  | cons p ms =>
      unfold jsonLoads
      simp only [jsonDumps]
      rw [skipWs_cons_of_not 123 _ (by decide)]
      simp only [List.length_cons]
      rw [parseVal_obj_step]
      obtain ⟨t, ht⟩ := members_head_shape p ms [125]
      rw [skipWs_members (p :: ms) (by simp) [125]]
      rw [ht]
      simp only []
      rw [← ht]
      rw [parseMembers_inv (p :: ms) _ [] (by simp) hsafe
        (by
          have := members_length_ge (p :: ms)
          simp only [List.length_cons, List.length_append] at *
          omega)]
      rfl

/-! ## crypto_utils (src/swift/common/crypto_utils.py) -/

mutual

/-- py2 repr of a decoded JSON value, used only through `pyStr` on nested
containers (the audited code never relies on its exact text). -/
def pyRepr : JVal → Bytes
  | .jstr s => 117 :: 39 :: (s ++ [39])
  | .jnum lexeme => lexeme
  | .jbool b => if b then bytesOfString "True" else bytesOfString "False"
  | .jnull => bytesOfString "None"
  | .jarr xs => 91 :: (pyReprList xs ++ [93])
  | .jobj kvs => 123 :: (pyReprPairs kvs ++ [125])

def pyReprList : List JVal → Bytes
  | [] => []
  | [x] => pyRepr x
  | x :: y :: tl => pyRepr x ++ [44, 32] ++ pyReprList (y :: tl)

def pyReprPairs : List (Bytes × JVal) → Bytes
  | [] => []
  | [(k, v)] => pyRepr (.jstr k) ++ [58, 32] ++ pyRepr v
  | (k, v) :: q :: tl =>
      pyRepr (.jstr k) ++ [58, 32] ++ pyRepr v ++ [44, 32] ++ pyReprPairs (q :: tl)

end

/-- py2 `str()` applied to a decoded JSON value, as done for every non-iv
value in `load_crypto_meta`; strings pass through unchanged. -/
def pyStr : JVal → Bytes
  | .jstr s => s
  | v => pyRepr v

/-- The reserved key `iv` whose value is binary. -/
def ivKey : Bytes := [105, 118]

/-- Errors escaping `load_crypto_meta`: the dedicated `EncryptionException`
raised by the `except (KeyError, ValueError, TypeError)` handler, or a python
exception of any other kind that the handler does not catch. -/
inductive CryptoError
  | encryptionException
  | pyError (e : PyExc)
  deriving DecidableEq, Repr

/-- A crypto-meta dict: mapping from name to (byte-string) value, where the
`iv` entry holds raw binary and the other entries text. -/
abbrev CryptoMeta := List (Bytes × Bytes)

/-- Python dict construction from a pair sequence: later duplicate keys
overwrite earlier ones in place (as json.loads does for repeated keys). -/
def dictUpd {α : Type} (d : List (Bytes × α)) (k : Bytes) (v : α) :
    List (Bytes × α) :=
  if d.any (fun p => p.1 == k) then
    d.map (fun p => if p.1 == k then (k, v) else p)
  else d ++ [(k, v)]

def dictOfPairs {α : Type} (l : List (Bytes × α)) : List (Bytes × α) :=
  l.foldl (fun d p => dictUpd d p.1 p.2) []

/-- dump_crypto_meta: json-dump the dict with the `iv` entry base64-encoded,
then percent-encode the whole string (crypto_utils.py lines 78-93). -/
def dump_crypto_meta (m : CryptoMeta) : Bytes :=
  quote_plus (jsonDumps
    (m.map (fun p => (p.1, if p.1 = ivKey then b64encode p.2 else p.2))))

/-- The comprehension body of load_crypto_meta: `str(name)` for keys,
`base64.b64decode(value)` for the iv entry (a b64decode failure is py2
TypeError), `str(value)` otherwise. -/
def loadItems : List (Bytes × JVal) → Except PyExc (List (Bytes × Bytes))
  | [] => .ok []
  | (k, v) :: tl =>
      match
        (if k = ivKey then
          match v with
          | .jstr s =>
              match b64decode s with
              | .ok bs => Except.ok bs
              | .error _ => Except.error PyExc.typeError
          | _ => Except.error PyExc.typeError
        else Except.ok (pyStr v) : Except PyExc Bytes) with
      | .error e => .error e
      | .ok w =>
          match loadItems tl with
          | .error e => .error e
          | .ok rest => .ok ((k, w) :: rest)

/-- The try-block of load_crypto_meta: percent-decode, json-decode, then
rebuild the dict casting values; a non-object json document has no `.items`
and raises AttributeError. -/
def loadBody (v : Bytes) : Except PyExc (List (Bytes × Bytes)) :=
  match jsonLoads (unquote_plus v) with
  | .error e => .error e
  | .ok (.jobj kvs) => loadItems (dictOfPairs kvs)
  | .ok (.jstr _) => .error .attributeError
  | .ok (.jnum _) => .error .attributeError
  | .ok (.jbool _) => .error .attributeError
  | .ok .jnull => .error .attributeError
  | .ok (.jarr _) => .error .attributeError

/-- load_crypto_meta (crypto_utils.py lines 96-118): the except clause turns
KeyError, ValueError and TypeError into EncryptionException; anything else
escapes as-is. -/
def load_crypto_meta (v : Bytes) : Except CryptoError (List (Bytes × Bytes)) :=
  match loadBody v with
  | .ok m => .ok m
  | .error .keyError => .error .encryptionException
  | .error .valueError => .error .encryptionException
  | .error .typeError => .error .encryptionException
  | .error e => .error (.pyError e)

/-- The literal bytes of `meta=`. -/
def metaEq : Bytes := [109, 101, 116, 97, 61]

/-- append_crypto_meta (crypto_utils.py lines 121-129):
`'%s; meta=%s' % (value, dump_crypto_meta(crypto_meta))`. -/
def append_crypto_meta (value : Bytes) (m : CryptoMeta) : Bytes :=
  value ++ [59, 32] ++ metaEq ++ dump_crypto_meta m

/-- py2 whitespace stripped by str.strip(). -/
def isPySpace (c : Nat) : Bool :=
  c == 32 || c == 9 || c == 10 || c == 13 || c == 11 || c == 12

/-- py2 str.strip(). -/
def pyStrip (s : Bytes) : Bytes :=
  ((s.dropWhile isPySpace).reverse.dropWhile isPySpace).reverse

/-- `value.rsplit(';', 1)`: split at the last `;`, or `none` when there is no
semicolon (in which case python returns the one-element list). -/
def rsplitSemi : Bytes → Option (Bytes × Bytes)
  | [] => none
  | c :: rest =>
      match rsplitSemi rest with
      | some (a, b) => some (c :: a, b)
      | none => if c = 59 then some ([], rest) else none

/-- extract_crypto_meta (crypto_utils.py lines 132-147).  Note the source
reassigns `value, param = parts` before testing for the `meta=` marker, so
the part before the last `;` is returned even when no crypto meta follows.
A `load_crypto_meta` failure propagates. -/
def extract_crypto_meta (value : Bytes) :
    Except CryptoError (Bytes × Option CryptoMeta) :=
  match rsplitSemi value with
  | none => .ok (value, none)
  | some (v, param) =>
      if metaEq.isPrefixOf (pyStrip param) then
        match load_crypto_meta ((pyStrip param).drop 5) with
        | .ok m => .ok (v, some m)
        | .error e => .error e
      else .ok (v, none)

/-! ### Validity of crypto meta and the dump/load round trip -/

/-- A valid CryptoMeta per the data model: distinct keys, an `iv` entry of
arbitrary binary bytes, printable-ASCII (transport-safe) keys and other
values. -/
def ValidCryptoMeta (m : CryptoMeta) : Prop :=
  (m.map Prod.fst).Nodup ∧
  ivKey ∈ m.map Prod.fst ∧
  ∀ p ∈ m, (∀ c ∈ p.1, 32 ≤ c ∧ c ≤ 126) ∧
    (p.1 = ivKey → ∀ c ∈ p.2, c < 256) ∧
    (p.1 ≠ ivKey → ∀ c ∈ p.2, 32 ≤ c ∧ c ≤ 126)

instance (m : CryptoMeta) : Decidable (ValidCryptoMeta m) := by
  unfold ValidCryptoMeta
  infer_instance

theorem isB64OrPad_bounds (c : Nat) (h : isB64OrPad c = true) :
    43 ≤ c ∧ c ≤ 122 := by
  unfold isB64OrPad b64val at h
  split_ifs at h <;> simp_all <;> omega

theorem mem_jsonEscape (s : Bytes) (c : Nat) (h : c ∈ jsonEscape s) :
    c = 92 ∨ c ∈ s := by
  unfold jsonEscape at h
  rw [List.mem_flatMap] at h
  obtain ⟨x, hx, hc⟩ := h
  unfold jsonEscapeChar at hc
  split_ifs at hc
  · simp only [List.mem_cons, List.not_mem_nil, or_false] at hc
    rcases hc with h1 | h1
    · exact Or.inl h1
    · exact Or.inr (h1 ▸ hx)
  · simp only [List.mem_cons, List.not_mem_nil, or_false] at hc
    exact Or.inr (hc ▸ hx)

theorem mem_joinSep (sep : Bytes) (l : List Bytes) (c : Nat)
    (h : c ∈ joinSep sep l) : c ∈ sep ∨ ∃ x ∈ l, c ∈ x := by
  induction l using joinSep.induct sep with
  | case1 => simp [joinSep] at h
  | case2 x => exact Or.inr ⟨x, by simp, by simpa [joinSep] using h⟩
  | case3 x y tl ih =>
      rw [joinSep, List.mem_append, List.mem_append] at h
      rcases h with (h | h) | h
      · exact Or.inr ⟨x, by simp, h⟩
      · exact Or.inl h
      · rcases ih h with h2 | ⟨z, hz, hc⟩
        · exact Or.inl h2
        · exact Or.inr ⟨z, by simp [hz], hc⟩

theorem mem_jsonMember (p : Bytes × Bytes) (c : Nat) (h : c ∈ jsonMember p) :
    c = 34 ∨ c = 58 ∨ c = 32 ∨ c ∈ jsonEscape p.1 ∨ c ∈ jsonEscape p.2 := by
  unfold jsonMember jsonStrLit at h
  simp only [List.append_assoc, List.cons_append, List.nil_append,
    List.mem_append, List.mem_cons, List.not_mem_nil, or_false] at h
  tauto

theorem mem_jsonDumps_lt (d : List (Bytes × Bytes))
    (hd : ∀ p ∈ d, (∀ c ∈ p.1, c ≤ 126) ∧ (∀ c ∈ p.2, c ≤ 126)) :
    ∀ c ∈ jsonDumps d, c < 256 := by
  intro c hc
  unfold jsonDumps at hc
  simp only [List.mem_cons, List.mem_append] at hc
  rcases hc with h | h | h
  · omega
  · rcases mem_joinSep _ _ _ h with hsep | ⟨x, hx, hcx⟩
    · simp at hsep
      omega
    · rw [List.mem_map] at hx
      obtain ⟨p, hp, rfl⟩ := hx
      rcases mem_jsonMember p c hcx with h1 | h1 | h1 | h1 | h1
      · omega
      · omega
      · omega
      · rcases mem_jsonEscape _ _ h1 with h2 | h2
        · omega
        · have := (hd p hp).1 c h2
          omega
      · rcases mem_jsonEscape _ _ h1 with h2 | h2
        · omega
        · have := (hd p hp).2 c h2
          omega
  · simp at h
    omega

theorem mem_quote_plus_bounds (s : Bytes) :
    ∀ c ∈ quote_plus s, 33 ≤ c ∧ c ≤ 126 ∧ c ≠ 59 := by
  intro c hc
  unfold quote_plus at hc
  rw [List.mem_flatMap] at hc
  obtain ⟨x, _, hcx⟩ := hc
  unfold quotePlusChar at hcx
  split_ifs at hcx with h1 h2
  · simp at hcx
    subst hcx
    simp only [quoteSafe, decide_eq_true_eq] at h1
    omega
  · simp at hcx
    omega
  · simp only [List.mem_cons, List.not_mem_nil, or_false] at hcx
    have hb : ∀ n < 16, (48 ≤ hexDigitUpper n ∧ hexDigitUpper n ≤ 57) ∨
        (65 ≤ hexDigitUpper n ∧ hexDigitUpper n ≤ 70) := by decide
    rcases hcx with h | h | h
    · omega
    · subst h
      have h2 := hb _ (Nat.mod_lt (x / 16) (by omega))
      omega
    · subst h
      have h2 := hb _ (Nat.mod_lt x (by omega))
      omega

theorem foldl_dictUpd {α : Type} :
    ∀ (l acc : List (Bytes × α)),
      (∀ p ∈ l, ∀ q ∈ acc, p.1 ≠ q.1) → (l.map Prod.fst).Nodup →
      l.foldl (fun d p => dictUpd d p.1 p.2) acc = acc ++ l := by
  intro l
  induction l with
  | nil => intro acc _ _; simp
  | cons p tl ih =>
      intro acc hdis hnd
      simp only [List.foldl_cons]
      have hany : acc.any (fun q => q.1 == p.1) = false := by
        rw [List.any_eq_false]
        intro q hq
        simpa using (hdis p (by simp) q hq).symm
      have hupd : dictUpd acc p.1 p.2 = acc ++ [(p.1, p.2)] := by
        unfold dictUpd
        rw [if_neg (by simp [hany])]
      rw [hupd]
      simp only [List.map_cons, List.nodup_cons, List.mem_map] at hnd
      have hstep := ih (acc ++ [(p.1, p.2)])
        (fun r hr q hq => by
          rw [List.mem_append] at hq
          rcases hq with hq | hq
          · exact hdis r (by simp [hr]) q hq
          · simp only [List.mem_singleton] at hq
            subst hq
            intro hcon
            exact hnd.1 ⟨r, hr, hcon⟩)
        hnd.2
      rw [hstep, List.append_assoc]
      rfl

theorem dictOfPairs_nodup {α : Type} (l : List (Bytes × α))
    (h : (l.map Prod.fst).Nodup) : dictOfPairs l = l := by
  unfold dictOfPairs
  rw [foldl_dictUpd l [] (by simp) h]
  simp

theorem loadItems_mapped (m : CryptoMeta)
    (hsafe : ∀ p ∈ m, (p.1 = ivKey → ∀ c ∈ p.2, c < 256)) :
    loadItems (m.map (fun p =>
      (p.1, JVal.jstr (if p.1 = ivKey then b64encode p.2 else p.2)))) = .ok m := by
  induction m with
  | nil => rfl
  | cons p tl ih =>
      obtain ⟨k, v⟩ := p
      simp only [List.map_cons, loadItems]
      by_cases hk : k = ivKey
      · rw [if_pos hk, if_pos hk]
        rw [b64decode_b64encode v (hsafe (k, v) (by simp) hk)]
        rw [ih (fun q hq => hsafe q (by simp [hq]))]
      · rw [if_neg hk, if_neg hk]
        rw [ih (fun q hq => hsafe q (by simp [hq]))]
        rfl

theorem load_dump_roundtrip (m : CryptoMeta) (h : ValidCryptoMeta m) :
    load_crypto_meta (dump_crypto_meta m) = .ok m := by
  obtain ⟨hnd, _, hsafe⟩ := h
  unfold load_crypto_meta loadBody dump_crypto_meta
  have hdsafe : ∀ p ∈ m.map (fun p =>
      (p.1, if p.1 = ivKey then b64encode p.2 else p.2)),
      (∀ c ∈ p.1, 32 ≤ c ∧ c ≤ 126) ∧ (∀ c ∈ p.2, 32 ≤ c ∧ c ≤ 126) := by
    intro p hp
    rw [List.mem_map] at hp
    obtain ⟨q, hq, rfl⟩ := hp
    refine ⟨(hsafe q hq).1, ?_⟩
    by_cases hk : q.1 = ivKey
    · rw [if_pos hk]
      intro c hc
      have := isB64OrPad_bounds c (mem_b64encode_isB64OrPad q.2 c hc)
      omega
    · rw [if_neg hk]
      exact (hsafe q hq).2.2 hk
  rw [unquote_plus_quote_plus _ (mem_jsonDumps_lt _
    (fun p hp => ⟨fun c hc => ((hdsafe p hp).1 c hc).2,
                  fun c hc => ((hdsafe p hp).2 c hc).2⟩))]
  rw [jsonLoads_jsonDumps _ hdsafe]
  simp only [List.map_map]
  rw [dictOfPairs_nodup _ (by
    rw [show (List.map ((fun p => (p.1, JVal.jstr p.2)) ∘
        (fun p : Bytes × Bytes => (p.1, if p.1 = ivKey then b64encode p.2 else p.2))) m).map
        Prod.fst = m.map Prod.fst from by
      rw [List.map_map]
      rfl]
    exact hnd)]
  have hcomp : List.map ((fun p => (p.1, JVal.jstr p.2)) ∘
      (fun p : Bytes × Bytes => (p.1, if p.1 = ivKey then b64encode p.2 else p.2))) m
      = m.map (fun p => (p.1, JVal.jstr (if p.1 = ivKey then b64encode p.2 else p.2))) := by
    rfl
  rw [hcomp]
  rw [loadItems_mapped m (fun p hp => (hsafe p hp).2.1)]

/-! ### extract / append -/

theorem dropWhile_no (p : Nat → Bool) (l : Bytes) (h : ∀ c ∈ l, p c = false) :
    l.dropWhile p = l := by
  cases l with
  | nil => rfl
  | cons c tl => simp [List.dropWhile_cons, h c (by simp)]

theorem pyStrip_no_space (l : Bytes) (h : ∀ c ∈ l, isPySpace c = false) :
    pyStrip l = l := by
  unfold pyStrip
  rw [dropWhile_no _ _ h, dropWhile_no _ _ (fun c hc => h c (by simpa using hc)),
    List.reverse_reverse]

theorem pyStrip_space_cons (l : Bytes) : pyStrip (32 :: l) = pyStrip l := by
  unfold pyStrip
  rw [List.dropWhile_cons]
  simp [isPySpace]

theorem rsplitSemi_no_semi (v : Bytes) (h : 59 ∉ v) : rsplitSemi v = none := by
  induction v with
  | nil => rfl
  | cons c tl ih =>
      rw [rsplitSemi, ih (fun hc => h (by simp [hc]))]
      rw [if_neg (fun hc => h (by simp [hc]))]

theorem rsplitSemi_last (a b : Bytes) (h : 59 ∉ b) :
    rsplitSemi (a ++ 59 :: b) = some (a, b) := by
  induction a with
  | nil =>
      rw [List.nil_append, rsplitSemi, rsplitSemi_no_semi b h, if_pos rfl]
  | cons c tl ih =>
      rw [List.cons_append, rsplitSemi, ih]

theorem isPrefixOf_append_self (l t : Bytes) : l.isPrefixOf (l ++ t) = true := by
  induction l with
  | nil => simp [List.isPrefixOf]
  | cons c tl ih => simp [List.isPrefixOf, ih]

theorem mem_dump_bounds (m : CryptoMeta) :
    ∀ c ∈ dump_crypto_meta m, 33 ≤ c ∧ c ≤ 126 ∧ c ≠ 59 := by
  intro c hc
  unfold dump_crypto_meta at hc
  exact mem_quote_plus_bounds _ c hc

theorem extract_append (v : Bytes) (m : CryptoMeta) (h : ValidCryptoMeta m) :
    extract_crypto_meta (append_crypto_meta v m) = .ok (v, some m) := by
  have hd := mem_dump_bounds m
  have htail : (59 : Nat) ∉ 32 :: (metaEq ++ dump_crypto_meta m) := by
    intro hc
    simp only [List.mem_cons, List.mem_append] at hc
    rcases hc with h1 | h1 | h1
    · omega
    · simp [metaEq] at h1
    · exact (hd 59 h1).2.2 rfl
  have hshape : append_crypto_meta v m
      = v ++ 59 :: (32 :: (metaEq ++ dump_crypto_meta m)) := by
    unfold append_crypto_meta
    simp [List.append_assoc]
  unfold extract_crypto_meta
  rw [hshape, rsplitSemi_last v _ htail]
  simp only []
  have hnos : ∀ c ∈ metaEq ++ dump_crypto_meta m, isPySpace c = false := by
    intro c hc
    rw [List.mem_append] at hc
    have hb : 33 ≤ c ∧ c ≤ 126 := by
      rcases hc with h1 | h1
      · simp only [metaEq, List.mem_cons, List.not_mem_nil, or_false] at h1
        omega
      · exact ⟨(hd c h1).1, (hd c h1).2.1⟩
    simp only [isPySpace, Bool.or_eq_false_iff, beq_eq_false_iff_ne]
    omega
  rw [pyStrip_space_cons, pyStrip_no_space _ hnos]
  rw [if_pos (isPrefixOf_append_self metaEq _)]
  rw [show (5 : Nat) = metaEq.length from rfl, List.drop_left]
  rw [load_dump_roundtrip m h]

/-! ## Key retrieval (CryptoWSGIContext.get_keys, crypto_utils.py 40-75) -/

/-- External error signals surfaced to the request layer. -/
inductive HttpError
  | internalServerError (msg : String)
  | badRequest (msg : String)
  deriving DecidableEq, Repr

/-- The value returned by the fetch_crypto_keys callback: either a dict
(role name to key bytes) or something unsubscriptable (py2 TypeError on
lookup). -/
inductive KeysVal
  | dict (entries : List (String × Bytes))
  | nondict
  deriving DecidableEq, Repr

/-- Message of every HTTPInternalServerError raised by get_keys. -/
def keysErrMsg : String := "Unable to retrieve encryption keys."

/-- What get_keys can produce: the keys value, an HTTP error, or an uncaught
python exception (the channel exists to show nothing ever uses it: the
callback invocation is wrapped in `except Exception`). -/
inductive GetKeysResult
  | ok (keys : KeysVal)
  | http (e : HttpError)
  | uncaught (e : PyExc)
  deriving DecidableEq, Repr

/-- One iteration of the required-roles loop: look the role up in the keys
(TypeError if not a dict, KeyError if missing) and run crypto.check_key
(which signals a bad key with ValueError). -/
def roleFailure (checkKey : Bytes → Except Unit Unit) (keys : KeysVal)
    (name : String) : Bool :=
  match keys with
  | .nondict => true
  | .dict entries =>
      match entries.lookup name with
      | none => true
      | some k =>
          match checkKey k with
          | .ok _ => false
          | .error _ => true

def getKeysLoop (checkKey : Bytes → Except Unit Unit) (keys : KeysVal) :
    List String → GetKeysResult
  | [] => .ok keys
  | name :: rest =>
      if roleFailure checkKey keys name then
        .http (.internalServerError keysErrMsg)
      else getKeysLoop checkKey keys rest

/-- CryptoWSGIContext.get_keys.  `env` is the CRYPTO_KEY_CALLBACK entry of
the request environment: absent, or a callback whose invocation raises or
returns a keys value.  `required` of `none` models the default argument. -/
def get_keys (serverType : String) (checkKey : Bytes → Except Unit Unit)
    (env : Option (Except PyExc KeysVal)) (required : Option (List String)) :
    GetKeysResult :=
  let req := required.getD [serverType]
  match env with
  | none => .http (.internalServerError keysErrMsg)
  | some (.error _) => .http (.internalServerError keysErrMsg)
  | some (.ok keys) => getKeysLoop checkKey keys req

/-! ## BYOK header parsing (parse_header_keys, crypto_utils.py 157-185) -/

def objKeyHeader : String := "X-Crypto-Object-Key"
def contKeyHeader : String := "X-Crypto-Container-Key"

/-- _validate_key: header lookup (KeyError when absent), base64 decode
(TypeError when malformed), then the 32-byte length check. -/
def validateHeaderKey (name : String) (h : Option Bytes) :
    Except HttpError Bytes :=
  match h with
  | none => .error (.badRequest (name ++ " is missing"))
  | some v =>
      match b64decode v with
      | .error _ => .error (.badRequest (name ++ " is an invalid format"))
      | .ok k =>
          if k.length ≠ 32 then
            .error (.badRequest (name ++ " length should be 32"))
          else .ok k

/-- parse_header_keys: inactive (empty dict) unless one of the two BYOK
headers is present; then both are validated, object first. -/
def parse_header_keys (hObj hCont : Option Bytes) :
    Except HttpError (List (String × Bytes)) :=
  if hObj.isNone ∧ hCont.isNone then .ok []
  else
    match validateHeaderKey objKeyHeader hObj with
    | .error e => .error e
    | .ok ko =>
        match validateHeaderKey contKeyHeader hCont with
        | .error e => .error e
        | .ok kc => .ok [("object", ko), ("container", kc)]

/-! ## Object auditor (src/swift/obj/auditor.py)

`object_audit` is modelled as a function of the per-object filesystem
environment: each fallible external read (metadata, DiskFile construction,
getsize, metadata lookups) appears as an `Except` field set by the
environment, and the md5 of the streamed chunks as an abstract digest
function.  The rate-limit sleeps and the wall-clock periodic progress report
are time-only effects and do not touch the audit counters, so they are
elided; the final-summary rate computation is kept, with python float
division modelled by `pyDiv`. -/

/-- AuditorWorker counters touched by object_audit / audit_all_objects. -/
structure AuditorState where
  passes : Nat
  quarantines : Nat
  errors : Nat
  bytes_processed : Nat
  total_bytes_processed : Nat
  total_files_processed : Nat
  deriving DecidableEq, Repr

inductive AuditOutcome
  | skipped
  | passed
  | quarantined
  | errored
  deriving DecidableEq, Repr

/-- Outcome of one object_audit call; `renamedTo` is the quarantine rename
destination when the object was quarantined. -/
structure AuditResult where
  outcome : AuditOutcome
  renamedTo : Option Bytes
  deriving DecidableEq, Repr

/-- Filesystem environment of a single audited location. -/
structure ObjEnv where
  isDataFile : Bool
  metaName : Except Unit Bytes
  diskFileData : Except Unit Bool
  objSize : Except Unit Nat
  contentLength : Except Unit Int
  etagMeta : Except Unit Bytes
  chunks : List Bytes
  objDirBase : Bytes
  device : Bytes
  deriving DecidableEq, Repr

/-- Destination of the quarantine rename:
`<devices>/<device>/quarantined/objects/<basename(dirname(path))>`. -/
def quarantineTarget (devices device base : Bytes) : Bytes :=
  devices ++ [47] ++ device ++ bytesOfString "/quarantined/objects/" ++ base

/-- The `except AuditException` handler: count a quarantine and rename the
object directory into the quarantine area (auditor.py lines 147-155). -/
def quarantineStep (devices : Bytes) (env : ObjEnv) (st : AuditorState) :
    AuditorState × AuditResult :=
  ({ st with quarantines := st.quarantines + 1 },
   { outcome := .quarantined,
     renamedTo := some (quarantineTarget devices env.device env.objDirBase) })

/-- The `except Exception` handler: count an error and continue
(auditor.py lines 156-159). -/
def errorStep (st : AuditorState) : AuditorState × AuditResult :=
  ({ st with errors := st.errors + 1 }, { outcome := .errored, renamedTo := none })

def skipStep (st : AuditorState) : AuditorState × AuditResult :=
  (st, { outcome := .skipped, renamedTo := none })

/-- The md5 streaming loop: pace the byte rate limiter and account every
chunk's bytes (auditor.py lines 135-142). -/
def streamChunks (chunks : List Bytes) (st : AuditorState) : AuditorState :=
  chunks.foldl
    (fun s ch =>
      { s with bytes_processed := s.bytes_processed + ch.length,
               total_bytes_processed := s.total_bytes_processed + ch.length })
    st

/-- AuditorWorker.object_audit (auditor.py lines 105-160). -/
def object_audit (devices : Bytes) (zbf : Bool)
    (hexdigest : List Bytes → Bytes) (env : ObjEnv) (st : AuditorState) :
    AuditorState × AuditResult :=
  if env.isDataFile = false then skipStep st
  else
    match env.metaName with
    | .error _ => quarantineStep devices env st
    | .ok name =>
        if name.count 47 < 3 then errorStep st
        else
          match env.diskFileData with
          | .error _ => errorStep st
          | .ok false => skipStep st
          | .ok true =>
              match env.objSize with
              | .error _ => errorStep st
              | .ok sz =>
                  match env.contentLength with
                  | .error _ => errorStep st
                  | .ok cl =>
                      if (sz : Int) ≠ cl then quarantineStep devices env st
                      else if zbf ∧ sz ≠ 0 then skipStep st
                      else
                        let st1 := streamChunks env.chunks st
                        match env.etagMeta with
                        | .error _ => errorStep st1
                        | .ok etag =>
                            if hexdigest env.chunks ≠ etag then
                              quarantineStep devices env st1
                            else
                              ({ st1 with passes := st1.passes + 1 },
                               { outcome := .passed, renamedTo := none })

/-- Python float division: raises ZeroDivisionError on a zero divisor. -/
def pyDiv (a b : ℚ) : Except PyExc ℚ :=
  if b = 0 then .error .zeroDivisionError else .ok (a / b)

/-- AuditorWorker.audit_all_objects (auditor.py lines 58-103): reset the
pass totals, audit every location (counting each file), then compute the
final summary rates `total_files_processed / elapsed` and
`total_bytes_processed / elapsed`. -/
def audit_all_objects (devices : Bytes) (zbf : Bool)
    (hexdigest : List Bytes → Bytes) (locs : List ObjEnv)
    (st : AuditorState) (elapsed : ℚ) :
    AuditorState × Except PyExc (ℚ × ℚ) :=
  let st0 := { st with total_bytes_processed := 0, total_files_processed := 0 }
  let stF := locs.foldl
    (fun s env =>
      let s1 := (object_audit devices zbf hexdigest env s).1
      { s1 with total_files_processed := s1.total_files_processed + 1 })
    st0
  (stF,
    match pyDiv (stF.total_files_processed : ℚ) elapsed with
    | .error e => .error e
    | .ok frate =>
        match pyDiv (stF.total_bytes_processed : ℚ) elapsed with
        | .error e => .error e
        | .ok brate => .ok (frate, brate))

/-! ## Helper lemmas for the claim theorems -/

def isJObj : JVal → Bool
  | .jobj _ => true
  | _ => false

theorem jsonLoads_error_eq (s : Bytes) (e : PyExc) (h : jsonLoads s = .error e) :
    e = .valueError := by
  unfold jsonLoads at h
  split at h
  · split at h
    · exact absurd h (by simp)
    · simpa using h.symm
  · simpa using h.symm

theorem loadItems_error_eq :
    ∀ (l : List (Bytes × JVal)) (e : PyExc), loadItems l = .error e →
      e = .typeError := by
  intro l
  induction l with
  | nil => intro e h; simp [loadItems] at h
  | cons p tl ih =>
      intro e h
      obtain ⟨k, v⟩ := p
      by_cases hk : k = ivKey
      · cases v with
        | jstr s =>
            cases hb : b64decode s with
            | ok bs =>
                cases ht : loadItems tl with
                | ok r => simp [loadItems, hk, hb, ht, Except.bind] at h
                | error e2 =>
                    simp [loadItems, hk, hb, ht, Except.bind] at h
                    have := ih e2 ht
                    simp_all
            | error u =>
                simp [loadItems, hk, hb, Except.bind] at h
                simp_all
        | jnum lx =>
            simp [loadItems, hk, Except.bind] at h
            simp_all
        | jbool b =>
            simp [loadItems, hk, Except.bind] at h
            simp_all
        | jnull =>
            simp [loadItems, hk, Except.bind] at h
            simp_all
        | jarr xs =>
            simp [loadItems, hk, Except.bind] at h
            simp_all
        | jobj kvs =>
            simp [loadItems, hk, Except.bind] at h
            simp_all
      · cases ht : loadItems tl with
        | ok r => simp [loadItems, hk, ht, Except.bind] at h
        | error e2 =>
            simp [loadItems, hk, ht, Except.bind] at h
            have := ih e2 ht
            simp_all

theorem getKeysLoop_failure (ck : Bytes → Except Unit Unit) (keys : KeysVal) :
    ∀ (pre : List String) (name : String) (post : List String),
      (∀ n ∈ pre, roleFailure ck keys n = false) →
      roleFailure ck keys name = true →
      getKeysLoop ck keys (pre ++ name :: post)
        = .http (.internalServerError keysErrMsg) := by
  intro pre
  induction pre with
  | nil =>
      intro name post _ hfail
      rw [List.nil_append, getKeysLoop, if_pos hfail]
  | cons q tl ih =>
      intro name post hok hfail
      rw [List.cons_append, getKeysLoop, if_neg (by simp [hok q (by simp)])]
      exact ih name post (fun n hn => hok n (by simp [hn])) hfail

/-! ## Claim theorems -/

/-- Worker counters at the start of a pass. -/
def st0 : AuditorState :=
  { passes := 0, quarantines := 0, errors := 0, bytes_processed := 0,
    total_bytes_processed := 0, total_files_processed := 0 }

/-- A location whose metadata read raises. -/
def envMetaFail : ObjEnv :=
  { isDataFile := true, metaName := .error (), diskFileData := .ok true,
    objSize := .ok 0, contentLength := .ok 0, etagMeta := .ok [],
    chunks := [], objDirBase := bytesOfString "objdir",
    device := bytesOfString "sda" }

/-- C1 counterexample: at a location whose metadata read fails, object_audit
quarantines (quarantine counter incremented, rename performed) and leaves the
error counter untouched — contradicting the claim that it reaches the
terminal state error with no quarantine. -/
theorem c1_claim_counterexample :
    object_audit (bytesOfString "/srv/node") false (fun _ => []) envMetaFail st0
      = ({ st0 with quarantines := 1 },
         { outcome := .quarantined,
           renamedTo := some (quarantineTarget (bytesOfString "/srv/node")
             envMetaFail.device envMetaFail.objDirBase) }) ∧
    (object_audit (bytesOfString "/srv/node") false (fun _ => [])
        envMetaFail st0).1.errors = 0 := by
  decide

/-- C1 (amended): for every data-file location whose metadata read fails,
object_audit reaches the terminal state quarantine: the quarantine counter is
incremented, the object directory is renamed into the quarantine directory,
and all other counters (errors included) are unchanged.  The metadata read
failure is wrapped in AuditException (auditor.py 116-119), which the
quarantine handler catches (line 147). -/
theorem c1_metadata_failure_quarantines (devices : Bytes) (zbf : Bool)
    (hexdigest : List Bytes → Bytes) (env : ObjEnv) (st : AuditorState)
    (hdata : env.isDataFile = true) (hmeta : env.metaName = .error ()) :
    object_audit devices zbf hexdigest env st
      = ({ st with quarantines := st.quarantines + 1 },
         { outcome := .quarantined,
           renamedTo := some (quarantineTarget devices env.device env.objDirBase) }) := by
  simp [object_audit, hdata, hmeta, quarantineStep]

/-- C1 witness. -/
theorem c1_metadata_failure_quarantines_witness :
    object_audit [] false (fun _ => []) envMetaFail st0
      = ({ st0 with quarantines := st0.quarantines + 1 },
         { outcome := .quarantined,
           renamedTo := some (quarantineTarget [] envMetaFail.device
             envMetaFail.objDirBase) }) :=
  c1_metadata_failure_quarantines [] false (fun _ => []) envMetaFail st0 rfl rfl

/-- C2 counterexample: extract on "a; foo=bar" returns "a" with no crypto
meta — the trailing unrelated segment is stripped, so the original value is
not returned unchanged as the claim states. -/
theorem c2_claim_counterexample :
    extract_crypto_meta (bytesOfString "a; foo=bar")
      = .ok (bytesOfString "a", none) ∧
    bytesOfString "a" ≠ bytesOfString "a; foo=bar" := by
  decide

/-- C2 (amended): when the value contains no semicolon at all, extract
returns it unchanged with no crypto meta; when it does contain one and the
trailing segment does not (after stripping) start with `meta=`, extract
returns the value with its last `;`-separated segment removed, paired with
no crypto meta (the source reassigns `value, param = parts` before testing
the marker). -/
theorem c2_extract_non_meta_tail :
    (∀ v : Bytes, 59 ∉ v → extract_crypto_meta v = .ok (v, none)) ∧
    (∀ a b : Bytes, 59 ∉ b → metaEq.isPrefixOf (pyStrip b) = false →
      extract_crypto_meta (a ++ 59 :: b) = .ok (a, none)) := by
  constructor
  · intro v hv
    unfold extract_crypto_meta
    rw [rsplitSemi_no_semi v hv]
  · intro a b hb hpfx
    unfold extract_crypto_meta
    rw [rsplitSemi_last a b hb]
    simp only []
    rw [hpfx]
    simp

/-- C2 witness. -/
theorem c2_extract_non_meta_tail_witness :
    extract_crypto_meta (bytesOfString "xyz") = .ok (bytesOfString "xyz", none) ∧
    extract_crypto_meta (bytesOfString "a" ++ 59 :: bytesOfString " foo=bar")
      = .ok (bytesOfString "a", none) :=
  ⟨c2_extract_non_meta_tail.1 _ (by decide),
   c2_extract_non_meta_tail.2 _ _ (by decide) (by decide)⟩

/-- C3 counterexample: a pass over no locations with elapsed time zero makes
the final summary raise ZeroDivisionError — the claim that the summary never
raises a division-by-zero error is false. -/
theorem c3_claim_counterexample :
    (audit_all_objects [] false (fun _ => []) [] st0 0).2
      = .error .zeroDivisionError := by
  decide

/-- C3 (amended): the final summary of audit_all_objects raises
ZeroDivisionError exactly when elapsed time is zero; for every pass with
nonzero elapsed time the lifetime total rates total_files_processed/elapsed
and total_bytes_processed/elapsed are reported without any exception (the
source divides with no zero guard, auditor.py lines 102-103). -/
theorem c3_summary_rates (devices : Bytes) (zbf : Bool)
    (hexdigest : List Bytes → Bytes) (locs : List ObjEnv)
    (st : AuditorState) (e : ℚ) (he : e ≠ 0) :
    (audit_all_objects devices zbf hexdigest locs st e).2
      = .ok
        (((audit_all_objects devices zbf hexdigest locs st e).1.total_files_processed : ℚ) / e,
         ((audit_all_objects devices zbf hexdigest locs st e).1.total_bytes_processed : ℚ) / e) := by
  simp [audit_all_objects, pyDiv, he]

/-- C3 witness. -/
theorem c3_summary_rates_witness :
    (audit_all_objects [] false (fun _ => []) [] st0 1).2
      = .ok
        (((audit_all_objects [] false (fun _ => []) [] st0 1).1.total_files_processed : ℚ) / 1,
         ((audit_all_objects [] false (fun _ => []) [] st0 1).1.total_bytes_processed : ℚ) / 1) :=
  c3_summary_rates [] false (fun _ => []) [] st0 1 (by norm_num)

/-- A location whose on-disk size disagrees with its Content-Length; the
chunk list is nonempty to witness that the content is never streamed. -/
def envSizeMismatch : ObjEnv :=
  { isDataFile := true, metaName := .ok (bytesOfString "/AUTH_a/c/o"),
    diskFileData := .ok true, objSize := .ok 5, contentLength := .ok 4,
    etagMeta := .ok (bytesOfString "d41d8cd98f00b204e9800998ecf8427e"),
    chunks := [[1, 2, 3], [4, 5]], objDirBase := bytesOfString "objdir",
    device := bytesOfString "sda" }

/-- C7: for every audited object whose on-disk size differs from the
Content-Length in its metadata, object_audit quarantines it — the quarantine
counter is incremented and the object directory renamed into the quarantine
area — and the byte counters are unchanged: the content is never streamed or
checksummed (the AuditException is raised before the md5 loop,
auditor.py lines 129-132). -/
theorem c7_size_mismatch_quarantines (devices : Bytes) (zbf : Bool)
    (hexdigest : List Bytes → Bytes) (env : ObjEnv) (st : AuditorState)
    (name : Bytes) (sz : Nat) (cl : Int)
    (hdata : env.isDataFile = true)
    (hname : env.metaName = .ok name) (hslash : 3 ≤ name.count 47)
    (hdf : env.diskFileData = .ok true)
    (hsz : env.objSize = .ok sz) (hcl : env.contentLength = .ok cl)
    (hmis : (sz : Int) ≠ cl) :
    object_audit devices zbf hexdigest env st
      = ({ st with quarantines := st.quarantines + 1 },
         { outcome := .quarantined,
           renamedTo := some (quarantineTarget devices env.device env.objDirBase) }) := by
  simp [object_audit, hdata, hname, hdf, hsz, hcl, hmis, quarantineStep,
    show ¬name.count 47 < 3 by omega]

/-- C7 witness. -/
theorem c7_size_mismatch_quarantines_witness :
    object_audit [] false (fun _ => []) envSizeMismatch st0
      = ({ st0 with quarantines := st0.quarantines + 1 },
         { outcome := .quarantined,
           renamedTo := some (quarantineTarget [] envSizeMismatch.device
             envSizeMismatch.objDirBase) }) :=
  c7_size_mismatch_quarantines [] false (fun _ => []) envSizeMismatch st0
    (bytesOfString "/AUTH_a/c/o") 5 4 rfl rfl (by decide) rfl rfl rfl (by decide)

theorem loadBody_error_cases (v : Bytes) (e : PyExc)
    (h : loadBody v = .error e) :
    e = .valueError ∨ e = .typeError ∨
      (e = .attributeError ∧
        ∃ j, jsonLoads (unquote_plus v) = .ok j ∧ isJObj j = false) := by
  unfold loadBody at h
  cases hj : jsonLoads (unquote_plus v) with
  | error e2 =>
      rw [hj] at h
      injection h with h2
      exact Or.inl (h2 ▸ jsonLoads_error_eq _ e2 hj)
  | ok j =>
      rw [hj] at h
      cases j with
      | jobj kvs =>
          simp only [] at h
          exact Or.inr (Or.inl (loadItems_error_eq _ e h))
      | jstr s =>
          injection h with h2
          exact Or.inr (Or.inr ⟨h2.symm, .jstr s, rfl, rfl⟩)
      | jnum lx =>
          injection h with h2
          exact Or.inr (Or.inr ⟨h2.symm, .jnum lx, rfl, rfl⟩)
      | jbool b =>
          injection h with h2
          exact Or.inr (Or.inr ⟨h2.symm, .jbool b, rfl, rfl⟩)
      | jnull =>
          injection h with h2
          exact Or.inr (Or.inr ⟨h2.symm, .jnull, rfl, rfl⟩)
      | jarr xs =>
          injection h with h2
          exact Or.inr (Or.inr ⟨h2.symm, .jarr xs, rfl, rfl⟩)

/-- C4 counterexample: the input "[]" is valid percent-encoded JSON but not
a crypto-meta envelope, and load raises a bare AttributeError (from
`.items()` on a list), not the dedicated EncryptionException — contradicting
the claim that every invalid input raises the dedicated decoding error. -/
theorem c4_claim_counterexample :
    load_crypto_meta [91, 93] = .error (.pyError .attributeError) ∧
    CryptoError.pyError .attributeError ≠ CryptoError.encryptionException := by
  decide

/-- C4 (amended): for every input, a python exception escaping
load_crypto_meta undigested is exactly AttributeError, and only when the
percent-decoded input is valid JSON whose top-level value is not an object;
a JSON parse failure raises the dedicated EncryptionException, and so does
every failure inside the item loop of a parsed object (iv base64 decode
included), since the handler catches KeyError, ValueError and TypeError. -/
theorem c4_load_error_classification (v : Bytes) :
    (∀ e, load_crypto_meta v = .error (.pyError e) →
      e = .attributeError ∧
        ∃ j, jsonLoads (unquote_plus v) = .ok j ∧ isJObj j = false) ∧
    (jsonLoads (unquote_plus v) = .error .valueError →
      load_crypto_meta v = .error .encryptionException) ∧
    (∀ kvs e, jsonLoads (unquote_plus v) = .ok (.jobj kvs) →
      loadItems (dictOfPairs kvs) = .error e →
      load_crypto_meta v = .error .encryptionException) := by
  refine ⟨?_, ?_, ?_⟩
  · intro e h
    unfold load_crypto_meta at h
    cases hb : loadBody v with
    | ok m => rw [hb] at h; simp at h
    | error pe =>
        rw [hb] at h
        rcases loadBody_error_cases v pe hb with h1 | h1 | ⟨h1, j, hj, hobj⟩
        · subst h1; simp at h
        · subst h1; simp at h
        · subst h1
          simp only [] at h
          injection h with h2
          injection h2 with h3
          exact ⟨h3.symm, j, hj, hobj⟩
  · intro hj
    have hb : loadBody v = .error .valueError := by
      unfold loadBody
      rw [hj]
    unfold load_crypto_meta
    rw [hb]
  · intro kvs e hj hload
    have he := loadItems_error_eq _ e hload
    subst he
    have hb : loadBody v = .error .typeError := by
      unfold loadBody
      rw [hj]
      exact hload
    unfold load_crypto_meta
    rw [hb]

/-- C4 witness. -/
theorem c4_load_error_classification_witness :
    (PyExc.attributeError = PyExc.attributeError ∧
      ∃ j, jsonLoads (unquote_plus [91, 93]) = .ok j ∧ isJObj j = false) ∧
    load_crypto_meta (bytesOfString "junk") = .error .encryptionException :=
  ⟨(c4_load_error_classification [91, 93]).1 .attributeError (by decide),
   (c4_load_error_classification (bytesOfString "junk")).2.1 (by rfl)⟩

/-- A sample valid crypto meta: binary iv (including a 0 and a byte over
127) plus a text entry. -/
def sampleMeta : CryptoMeta :=
  [([105, 118], [0, 255, 7, 99, 128]),
   (bytesOfString "cipher", bytesOfString "AES_CTR_256")]

/-- C5: for every valid CryptoMeta m (distinct keys, an iv entry of
arbitrary binary bytes, printable-ASCII keys and other values),
load(dump(m)) = m, and every byte of the dump output is printable ASCII —
the serialization never emits raw binary bytes (the iv travels only
base64-encoded inside the percent-encoded JSON). -/
theorem c5_dump_load_roundtrip (m : CryptoMeta) (h : ValidCryptoMeta m) :
    load_crypto_meta (dump_crypto_meta m) = .ok m ∧
    ∀ c ∈ dump_crypto_meta m, 32 < c ∧ c < 127 := by
  refine ⟨load_dump_roundtrip m h, fun c hc => ?_⟩
  have := mem_dump_bounds m c hc
  omega

/-- C5 witness. -/
theorem c5_dump_load_roundtrip_witness :
    load_crypto_meta (dump_crypto_meta sampleMeta) = .ok sampleMeta ∧
    ∀ c ∈ dump_crypto_meta sampleMeta, 32 < c ∧ c < 127 :=
  c5_dump_load_roundtrip sampleMeta (by decide)

/-- C6: for every string value v (semicolons allowed) and valid CryptoMeta
m, extract(append(v, m)) recovers exactly (v, m): the dump output contains
no semicolon or whitespace, so the rsplit finds the appended separator, the
`meta=` marker matches, and the load of the dumped meta round-trips. -/
theorem c6_extract_append_roundtrip (v : Bytes) (m : CryptoMeta)
    (h : ValidCryptoMeta m) :
    extract_crypto_meta (append_crypto_meta v m) = .ok (v, some m) :=
  extract_append v m h

/-- C6 witness (the value itself contains a semicolon). -/
theorem c6_extract_append_roundtrip_witness :
    extract_crypto_meta (append_crypto_meta (bytesOfString "etag;x") sampleMeta)
      = .ok (bytesOfString "etag;x", some sampleMeta) :=
  c6_extract_append_roundtrip (bytesOfString "etag;x") sampleMeta (by decide)

/-- C8: get_keys error-information parity.  A raising key-source callback is
never propagated raw, and every failing required role — missing from the
returned dict, a nonant-dict callback result, or a key that fails validation —
yields the byte-for-byte identical external signal
HTTPInternalServerError("Unable to retrieve encryption keys."), so the
caller cannot tell which check failed. -/
theorem c8_get_keys_uniform_errors :
    (∀ (st : String) (ck : Bytes → Except Unit Unit) (e : PyExc)
        (req : Option (List String)),
      get_keys st ck (some (.error e)) req
        = .http (.internalServerError keysErrMsg)) ∧
    (∀ (st : String) (ck : Bytes → Except Unit Unit)
        (entries : List (String × Bytes)) (pre post : List String)
        (name : String),
      (∀ n ∈ pre, roleFailure ck (.dict entries) n = false) →
      entries.lookup name = none →
      get_keys st ck (some (.ok (.dict entries))) (some (pre ++ name :: post))
        = .http (.internalServerError keysErrMsg)) ∧
    (∀ (st : String) (ck : Bytes → Except Unit Unit) (name : String)
        (names : List String),
      get_keys st ck (some (.ok .nondict)) (some (name :: names))
        = .http (.internalServerError keysErrMsg)) ∧
    (∀ (st : String) (ck : Bytes → Except Unit Unit)
        (entries : List (String × Bytes)) (pre post : List String)
        (name : String) (k : Bytes),
      (∀ n ∈ pre, roleFailure ck (.dict entries) n = false) →
      entries.lookup name = some k → ck k = .error () →
      get_keys st ck (some (.ok (.dict entries))) (some (pre ++ name :: post))
        = .http (.internalServerError keysErrMsg)) := by
  refine ⟨fun _ _ _ _ => rfl, ?_, ?_, ?_⟩
  · intro st ck entries pre post name hok hnone
    unfold get_keys
    simp only [Option.getD]
    exact getKeysLoop_failure ck _ pre name post hok
      (by simp [roleFailure, hnone])
  · intro st ck name names
    unfold get_keys
    simp only [Option.getD]
    exact getKeysLoop_failure ck _ [] name names (by simp) rfl
  · intro st ck entries pre post name k hok hsome hck
    unfold get_keys
    simp only [Option.getD]
    exact getKeysLoop_failure ck _ pre name post hok
      (by simp [roleFailure, hsome, hck])

/-- Length-32 key check used by the witnesses. -/
def ckSample : Bytes → Except Unit Unit :=
  fun k => if k.length = 32 then .ok () else .error ()

/-- C8 witness. -/
theorem c8_get_keys_uniform_errors_witness :
    get_keys "object" ckSample (some (.error .valueError)) none
      = .http (.internalServerError keysErrMsg) ∧
    get_keys "object" ckSample (some (.ok (.dict []))) (some ["object"])
      = .http (.internalServerError keysErrMsg) ∧
    get_keys "object" ckSample (some (.ok .nondict)) (some ["object"])
      = .http (.internalServerError keysErrMsg) ∧
    get_keys "object" ckSample (some (.ok (.dict [("object", [1, 2, 3])])))
        (some ["object"])
      = .http (.internalServerError keysErrMsg) :=
  ⟨c8_get_keys_uniform_errors.1 "object" ckSample .valueError none,
   c8_get_keys_uniform_errors.2.1 "object" ckSample [] [] [] "object"
     (by simp) (by decide),
   c8_get_keys_uniform_errors.2.2.1 "object" ckSample "object" [],
   c8_get_keys_uniform_errors.2.2.2 "object" ckSample [("object", [1, 2, 3])]
     [] [] "object" [1, 2, 3] (by simp) (by decide) (by decide)⟩

theorem validateHeaderKey_error (name : String) (h : Option Bytes)
    (e : HttpError) (he : validateHeaderKey name h = .error e) :
    e = .badRequest (name ++ " is missing") ∨
    e = .badRequest (name ++ " is an invalid format") ∨
    e = .badRequest (name ++ " length should be 32") := by
  unfold validateHeaderKey at he
  cases h with
  | none =>
      injection he with h2
      exact Or.inl h2.symm
  | some v =>
      simp only [] at he
      cases hb : b64decode v with
      | error u =>
          rw [hb] at he
          injection he with h2
          exact Or.inr (Or.inl h2.symm)
      | ok k =>
          rw [hb] at he
          simp only [] at he
          split_ifs at he with hlen
          injection he with h2
          exact Or.inr (Or.inr h2.symm)

/-- C9: BYOK parsing.  With neither header present the result is the empty
mapping; once one is present, a missing companion header, malformed base64,
or a decoded length other than 32 bytes each fail with a client error whose
message names the offending header; and every possible error message is one
of six fixed strings built from the header names only, so the key value is
never echoed. -/
theorem c9_parse_header_keys_errors :
    (parse_header_keys none none = .ok []) ∧
    (∀ v k, b64decode v = .ok k → k.length = 32 →
      parse_header_keys (some v) none
        = .error (.badRequest (contKeyHeader ++ " is missing"))) ∧
    (∀ w, parse_header_keys none (some w)
        = .error (.badRequest (objKeyHeader ++ " is missing"))) ∧
    (∀ v hc, b64decode v = .error () →
      parse_header_keys (some v) hc
        = .error (.badRequest (objKeyHeader ++ " is an invalid format"))) ∧
    (∀ v k w, b64decode v = .ok k → k.length = 32 → b64decode w = .error () →
      parse_header_keys (some v) (some w)
        = .error (.badRequest (contKeyHeader ++ " is an invalid format"))) ∧
    (∀ v k hc, b64decode v = .ok k → k.length ≠ 32 →
      parse_header_keys (some v) hc
        = .error (.badRequest (objKeyHeader ++ " length should be 32"))) ∧
    (∀ v k w k2, b64decode v = .ok k → k.length = 32 →
      b64decode w = .ok k2 → k2.length ≠ 32 →
      parse_header_keys (some v) (some w)
        = .error (.badRequest (contKeyHeader ++ " length should be 32"))) ∧
    (∀ ho hc e, parse_header_keys ho hc = .error e →
      e ∈ [HttpError.badRequest (objKeyHeader ++ " is missing"),
           .badRequest (objKeyHeader ++ " is an invalid format"),
           .badRequest (objKeyHeader ++ " length should be 32"),
           .badRequest (contKeyHeader ++ " is missing"),
           .badRequest (contKeyHeader ++ " is an invalid format"),
           .badRequest (contKeyHeader ++ " length should be 32")]) := by
  refine ⟨rfl, ?_, ?_, ?_, ?_, ?_, ?_, ?_⟩
  · intro v k hb hlen
    have hvo : validateHeaderKey objKeyHeader (some v) = .ok k := by
      unfold validateHeaderKey
      simp only []
      rw [hb]
      simp only []
      rw [if_neg (by omega)]
    unfold parse_header_keys
    rw [if_neg (by simp), hvo]
    rfl
  · intro w
    unfold parse_header_keys
    rw [if_neg (by simp)]
    rfl
  · intro v hc hb
    have hvo : validateHeaderKey objKeyHeader (some v)
        = .error (.badRequest (objKeyHeader ++ " is an invalid format")) := by
      unfold validateHeaderKey
      simp only []
      rw [hb]
    unfold parse_header_keys
    rw [if_neg (by simp), hvo]
  · intro v k w hb hlen hbw
    have hvo : validateHeaderKey objKeyHeader (some v) = .ok k := by
      unfold validateHeaderKey
      simp only []
      rw [hb]
      simp only []
      rw [if_neg (by omega)]
    have hvc : validateHeaderKey contKeyHeader (some w)
        = .error (.badRequest (contKeyHeader ++ " is an invalid format")) := by
      unfold validateHeaderKey
      simp only []
      rw [hbw]
    unfold parse_header_keys
    rw [if_neg (by simp), hvo, hvc]
  · intro v k hc hb hlen
    have hvo : validateHeaderKey objKeyHeader (some v)
        = .error (.badRequest (objKeyHeader ++ " length should be 32")) := by
      unfold validateHeaderKey
      simp only []
      rw [hb]
      simp only []
      rw [if_pos hlen]
    unfold parse_header_keys
    rw [if_neg (by simp), hvo]
  · intro v k w k2 hb hlen hbw hlen2
    have hvo : validateHeaderKey objKeyHeader (some v) = .ok k := by
      unfold validateHeaderKey
      simp only []
      rw [hb]
      simp only []
      rw [if_neg (by omega)]
    have hvc : validateHeaderKey contKeyHeader (some w)
        = .error (.badRequest (contKeyHeader ++ " length should be 32")) := by
      unfold validateHeaderKey
      simp only []
      rw [hbw]
      simp only []
      rw [if_pos hlen2]
    unfold parse_header_keys
    rw [if_neg (by simp), hvo, hvc]
  · intro ho hc e h
    unfold parse_header_keys at h
    split_ifs at h with hact
    cases hvo : validateHeaderKey objKeyHeader ho with
    | error eo =>
        rw [hvo] at h
        injection h with h2
        subst h2
        rcases validateHeaderKey_error _ _ _ hvo with h1 | h1 | h1 <;>
          simp [h1]
    | ok ko =>
        rw [hvo] at h
        simp only [] at h
        cases hvc : validateHeaderKey contKeyHeader hc with
        | error ec =>
            rw [hvc] at h
            injection h with h2
            subst h2
            rcases validateHeaderKey_error _ _ _ hvc with h1 | h1 | h1 <;>
              simp [h1]
        | ok kc =>
            rw [hvc] at h
            exact absurd h (by simp)

/-- C9 witness: a well-formed 32-byte object key with the container header
absent names the container header; a malformed object header names the
object header; a 20-byte container key fails on length. -/
theorem c9_parse_header_keys_errors_witness :
    parse_header_keys none none = .ok [] ∧
    parse_header_keys (some (b64encode (List.replicate 32 7))) none
      = .error (.badRequest (contKeyHeader ++ " is missing")) ∧
    parse_header_keys (some [65]) none
      = .error (.badRequest (objKeyHeader ++ " is an invalid format")) ∧
    parse_header_keys (some (b64encode (List.replicate 32 7)))
        (some (b64encode (List.replicate 20 9)))
      = .error (.badRequest (contKeyHeader ++ " length should be 32")) :=
  ⟨c9_parse_header_keys_errors.1,
   c9_parse_header_keys_errors.2.1 (b64encode (List.replicate 32 7))
     (List.replicate 32 7) (by decide) (by decide),
   c9_parse_header_keys_errors.2.2.2.1 [65] none (by decide),
   c9_parse_header_keys_errors.2.2.2.2.2.2.1 (b64encode (List.replicate 32 7))
     (List.replicate 32 7) (b64encode (List.replicate 20 9))
     (List.replicate 20 9) (by decide) (by decide) (by decide) (by decide)⟩

/-- C10: with the required-roles argument omitted, get_keys validates
exactly the single role equal to the context server_type — the call is
literally the call with required = [server_type], and whenever that one key
is present and validates, the whole mapping is returned with no other entry
checked. -/
theorem c10_default_required_is_server_type :
    (∀ (st : String) (ck : Bytes → Except Unit Unit)
        (env : Option (Except PyExc KeysVal)),
      get_keys st ck env none = get_keys st ck env (some [st])) ∧
    (∀ (st : String) (ck : Bytes → Except Unit Unit)
        (entries : List (String × Bytes)) (k : Bytes),
      entries.lookup st = some k → ck k = .ok () →
      get_keys st ck (some (.ok (.dict entries))) none = .ok (.dict entries)) := by
  constructor
  · intro st ck env
    rfl
  · intro st ck entries k hl hk
    unfold get_keys
    simp only [Option.getD]
    simp [getKeysLoop, roleFailure, hl, hk]

/-- C10 witness: the container entry is invalid (1 byte) yet get_keys with
the default required roles succeeds, because only the server_type role is
checked. -/
theorem c10_default_required_is_server_type_witness :
    get_keys "object" ckSample
        (some (.ok (.dict [("object", List.replicate 32 0), ("container", [1])])))
        none
      = .ok (.dict [("object", List.replicate 32 0), ("container", [1])]) :=
  c10_default_required_is_server_type.2 "object" ckSample
    [("object", List.replicate 32 0), ("container", [1])]
    (List.replicate 32 0) (by decide) (by decide)

end Swift
